import Mathlib

set_option maxHeartbeats 1000000
set_option maxRecDepth 4096

/-!
Shallow embedding of the osml10n transcription daemon
(`transcription-daemon/geo-transcript-srv.py`).

Python strings are modelled as `List Char` (one element per Unicode scalar
value); byte streams as `List Nat` with every element below 256.  The
external collaborators — the Unicode name table (`unicodedata.name`), the
tltk Thai romanizer, the jyutping converter, pykakasi, ICU, and the two geo
database backends — are parameters of the embedding: the daemon observes
`unicodedata.name` only through the possibility of a `ValueError` and the
first space-delimited token of the returned name, and observes each engine
as a function that either returns a string or fails.  A `none` result of
such a parameter models a raised exception at that call site.
-/

/-- Convert a Lean string literal to the `List Char` model of a Python string. -/
def pystr (s : String) : List Char := s.data

/-- The whitespace characters removed by Python `str.rstrip()` (the ASCII
whitespace set; the engine outputs handled here contain no exotic spaces). -/
def pyIsSpace (c : Char) : Bool :=
  c == ' ' || c == '\t' || c == '\n' || c == '\r' || c.toNat == 11 || c.toNat == 12

/-- Drop the trailing characters of `t` satisfying `p` (Python `rstrip` core). -/
def rstripP (p : Char → Bool) (t : List Char) : List Char :=
  (t.reverse.dropWhile p).reverse

/-- Python `.rstrip()`: remove trailing whitespace (leading whitespace is kept). -/
def rstripWS (t : List Char) : List Char := rstripP pyIsSpace t

/-- Python `.rstrip('<s/>')` as it appears in `thai_transcript`: removes every
trailing character belonging to the character set of the argument string
(the four characters of the marker), not the literal suffix `"<s/>"`. -/
def rstripMark (t : List Char) : List Char :=
  rstripP (fun c => c == '<' || c == 's' || c == '/' || c == '>') t

/-- The first space-delimited token of a codepoint's Unicode character name,
`unicodedata.name(c).split(' ')[0]` in the source; `none` when the codepoint
has no name, in which case `unicodedata.name` raises `ValueError`. -/
def alphaOf (uname : Char → Option (List Char)) (c : Char) : Option (List Char) :=
  (uname c).map (List.takeWhile (fun ch => ch != ' '))

/-- Loop of `split_by_alphabet` over the remaining characters, carrying the
previous character's alphabet, the run being built (`target`) and the runs
already emitted (`strlist`).  A `none` result models the `ValueError` raised
by `unicodedata.name` on an unnamed codepoint. -/
def sbaLoop (uname : Char → Option (List Char)) :
    List Char → List Char → List Char → List (List Char) → Option (List (List Char))
  | [], _, target, acc => some (acc ++ [target])
  | c :: cs, old, target, acc =>
    match alphaOf uname c with
    | none => none
    | some a =>
      if a = old then sbaLoop uname cs a (target ++ [c]) acc
      else sbaLoop uname cs a [c] (acc ++ [target])

/-- Source function `split_by_alphabet`: split a string into maximal runs of
codepoints sharing the first token of their Unicode character name.  On the
empty string the source raises `IndexError` (`str[0]`), and on an unnamed
codepoint `unicodedata.name` raises `ValueError`; both are modelled by `none`. -/
def split_by_alphabet (uname : Char → Option (List Char)) (s : List Char) :
    Option (List (List Char)) :=
  match s with
  | [] => none
  | c :: cs =>
    match alphaOf uname c with
    | none => none
    | some a0 => sbaLoop uname cs a0 [c] []

/-- Result of a transcription call as the connection handler observes it:
a returned string, the `None` sentinel (`noResult`), or a raised exception
that escapes the strategy (`raised`). -/
inductive TResult
  | raised
  | noResult
  | text (s : List Char)
deriving DecidableEq

/-- Loop of `thai_transcript` over the runs.  A run whose first codepoint's
name token is `THAI` is romanized (engine failure returns the `None`
sentinel); any other run is appended unchanged.  Indexing an empty run or
naming an unnamed codepoint raises (the source performs these outside its
`try` block). -/
def ttLoopThai (uname : Char → Option (List Char)) (eng : List Char → Option (List Char)) :
    List (List Char) → List Char → TResult
  | [], latin => .text latin
  | st :: rest, latin =>
    match st with
    | [] => .raised
    | c :: _ =>
      match alphaOf uname c with
      | none => .raised
      | some a =>
        if a = pystr "THAI" then
          match eng st with
          | none => .noResult
          | some t => ttLoopThai uname eng rest (latin ++ rstripWS (rstripMark t))
        else ttLoopThai uname eng rest (latin ++ st)

/-- Source function `thai_transcript`: split by alphabet, romanize the THAI
runs via tltk (`eng`), post-process with `.rstrip('<s/>').rstrip()`, pass
other runs through, concatenate. -/
def thai_transcript (uname : Char → Option (List Char))
    (eng : List Char → Option (List Char)) (inp : List Char) : TResult :=
  match split_by_alphabet uname inp with
  | none => .raised
  | some runs => ttLoopThai uname eng runs []

/-- Loop of `cantonese_transcript` over the runs: same shape as the Thai
loop, but triggered by the `CJK` name token and without any stripping of the
engine output. -/
def ctLoopCant (uname : Char → Option (List Char)) (eng : List Char → Option (List Char)) :
    List (List Char) → List Char → TResult
  | [], latin => .text latin
  | st :: rest, latin =>
    match st with
    | [] => .raised
    | c :: _ =>
      match alphaOf uname c with
      | none => .raised
      | some a =>
        if a = pystr "CJK" then
          match eng st with
          | none => .noResult
          | some t => ctLoopCant uname eng rest (latin ++ t)
        else ctLoopCant uname eng rest (latin ++ st)

/-- Source function `cantonese_transcript`: split by alphabet, convert the
CJK runs via `pinyin_jyutping_sentence.jyutping` (`eng`), pass other runs
through, concatenate. -/
def cantonese_transcript (uname : Char → Option (List Char))
    (eng : List Char → Option (List Char)) (inp : List Char) : TResult :=
  match split_by_alphabet uname inp with
  | none => .raised
  | some runs => ctLoopCant uname eng runs []

/-- Source function `contains_thai`: true when some codepoint lies strictly
between 0x0E00 and 0x0E7F (the source uses strict comparisons). -/
def contains_thai (text : List Char) : Bool :=
  text.any fun c => decide (0x0E00 < c.toNat ∧ c.toNat < 0x0E7F)

/-- Source function `contains_cjk`: true when some codepoint lies strictly
between 0x4E00 and 0x9FFF (the source uses strict comparisons). -/
def contains_cjk (text : List Char) : Bool :=
  text.any fun c => decide (0x4E00 < c.toNat ∧ c.toNat < 0x9FFF)

/-- The engine instances held by the `transcriptor` class together with the
Unicode name table.  `kakasi` abstracts the whole pykakasi pipeline of the
`jp` branch and `icu_nfc` abstracts `unicodedata.normalize` composed with
the ICU Any-Latin transliterator; no claim depends on their internals and
the spec declares them always-succeeding external collaborators. -/
structure Engines where
  uname : Char → Option (List Char)
  th2roman : List Char → Option (List Char)
  jyutping : List Char → Option (List Char)
  kakasi : List Char → List Char
  icu_nfc : List Char → List Char

/-- Source method `transcriptor.transcript`: dispatch on the effective
country code, in source order `jp`, `th`, `mo`/`hk`, generic. -/
def transcript (E : Engines) (country : List Char) (unistr : List Char) : TResult :=
  if country = pystr "jp" then .text (E.kakasi unistr)
  else if country = pystr "th" then thai_transcript E.uname E.th2roman unistr
  else if country = pystr "mo" ∨ country = pystr "hk" then
    cantonese_transcript E.uname E.jyutping unistr
  else .text (E.icu_nfc unistr)

/-- The `Coord2Country` component: the `ready` flag fixed at construction
and the backend query (PostgreSQL or SQLITE, abstracted by its contract). -/
structure Geo where
  ready : Bool
  backend : List Char → List Char → List Char

/-- Source method `Coord2Country.getCountry`: when both coordinate strings
are empty, answer the empty country without touching the backend. -/
def getCountry (g : Geo) (lon lat : List Char) : List Char :=
  if lat = [] ∧ lon = [] then [] else g.backend lon lat

/-- Python `data.split('/', 3)` on the character list model: `fuel` counts
the remaining allowed splits; once it is exhausted further separators stay
inside the final field. -/
def pySplitAux (sep : Char) : List Char → Nat → List Char → List (List Char)
  | [], _, acc => [acc.reverse]
  | c :: cs, fuel, acc =>
    if c = sep then
      match fuel with
      | 0 => pySplitAux sep cs 0 (c :: acc)
      | k + 1 => acc.reverse :: pySplitAux sep cs k []
    else pySplitAux sep cs fuel (c :: acc)

/-- The request parse of `handle_connection`: `data.split('/', 3)`. -/
def pySplit (data : List Char) : List (List Char) :=
  pySplitAux '/' data 3 []

/-- What one iteration of the `handle_connection` loop does with a request:
either a reply string is sent and the loop continues, or an uncaught
exception escapes the coroutine and the handler dies. -/
inductive Outcome
  | reply (s : List Char)
  | crashed
deriving DecidableEq

/-- Observable effects of processing one decoded request: the outcome, the
fact of having called `co2c.getCountry`, and the effective country code
passed on to transcription (`none` when the handler crashed before). -/
structure StepOut where
  outcome : Outcome
  geoQueried : Bool
  effCC : Option (List Char)
deriving DecidableEq

/-- The tail of the `handle_connection` loop body (the `try` block): skip
transcription for an empty name, send the transcription result when it is a
string, and reply with the empty string on the `None` sentinel or on any
caught exception. -/
def finish (E : Engines) (cc n : List Char) (q : Bool) : StepOut :=
  match (if n ≠ [] then transcript E cc n else .text []) with
  | .text s => ⟨.reply s, q, some cc⟩
  | .noResult => ⟨.reply [], q, some cc⟩
  | .raised => ⟨.reply [], q, some cc⟩

/-- One iteration of the `handle_connection` loop on a decoded request,
lines 267–300 of the source: split into at most 4 fields, take the country
code verbatim in the 3-field shape, resolve it from script classification
and the geo component in the 4-field shape, and crash on any other arity
(the tuple unpacking raises `ValueError` outside the `try` block). -/
def handle_request (E : Engines) (g : Geo) (data : List Char) : StepOut :=
  match pySplit data with
  | [_i, cc, n] => finish E cc n false
  | [_i, lon, lat, n] =>
    if g.ready then
      if contains_cjk n then finish E (getCountry g lon lat) n true
      else if contains_thai n then finish E (pystr "th") n false
      else finish E [] n false
    else finish E [] n false
  | _ => ⟨.crashed, false, none⟩

/-- The `while True` loop of `handle_connection` over a sequence of decoded
requests: each reply is sent in order; an uncaught exception ends the
handler, so no later request is processed. -/
def runRequests (E : Engines) (g : Geo) : List (List Char) → List (List Char)
  | [] => []
  | d :: ds =>
    match (handle_request E g d).outcome with
    | .reply s => s :: runRequests E g ds
    | .crashed => []

/-- The 4-byte length prefix written by `struct.pack('I', n)` (4-byte
unsigned integer, little-endian on the platforms the daemon targets);
`struct.error` for values of 2^32 or more is out of the frame model. -/
def pack32 (n : Nat) : List Nat :=
  [n % 256, n / 256 % 256, n / 65536 % 256, n / 16777216 % 256]

/-- The value read back by `struct.unpack('I', lendata)[0]` from 4 bytes. -/
def unpack32 : List Nat → Nat
  | [b0, b1, b2, b3] => b0 + 256 * b1 + 65536 * b2 + 16777216 * b3
  | _ => 0

/-- The UTF-8 encoding of one Unicode scalar value, as `str.encode('utf-8')`
produces it (Lean `Char` excludes exactly the surrogates Python refuses to
encode). -/
def encodeChar (c : Char) : List Nat :=
  if c.toNat < 0x80 then [c.toNat]
  else if c.toNat < 0x800 then [0xC0 + c.toNat / 64, 0x80 + c.toNat % 64]
  else if c.toNat < 0x10000 then
    [0xE0 + c.toNat / 4096, 0x80 + c.toNat / 64 % 64, 0x80 + c.toNat % 64]
  else
    [0xF0 + c.toNat / 262144, 0x80 + c.toNat / 4096 % 64, 0x80 + c.toNat / 64 % 64,
      0x80 + c.toNat % 64]

/-- The UTF-8 encoding of a whole string (`reply.encode('utf-8')`). -/
def utf8Encode : List Char → List Nat
  | [] => []
  | c :: cs => encodeChar c ++ utf8Encode cs

/-- Prepend the decoded scalar value `n` to a partial decode, rejecting
values that are not Unicode scalar values (surrogates, out of range). -/
def mcons (n : Nat) (r : Option (List Char)) : Option (List Char) :=
  if n.isValidChar then r.map (Char.ofNat n :: ·) else none

/-- Decode a 2-byte UTF-8 sequence to its scalar value, rejecting bad
continuation bytes and overlong forms. -/
def dec2 (b b1 : Nat) : Option Nat :=
  if 0x80 ≤ b1 ∧ b1 < 0xC0 then
    if (b - 0xC0) * 64 + (b1 - 0x80) < 0x80 then none
    else some ((b - 0xC0) * 64 + (b1 - 0x80))
  else none

/-- Decode a 3-byte UTF-8 sequence to its scalar value, rejecting bad
continuation bytes and overlong forms (surrogates are rejected later by
`mcons`). -/
def dec3 (b b1 b2 : Nat) : Option Nat :=
  if (0x80 ≤ b1 ∧ b1 < 0xC0) ∧ (0x80 ≤ b2 ∧ b2 < 0xC0) then
    if (b - 0xE0) * 4096 + (b1 - 0x80) * 64 + (b2 - 0x80) < 0x800 then none
    else some ((b - 0xE0) * 4096 + (b1 - 0x80) * 64 + (b2 - 0x80))
  else none

/-- Decode a 4-byte UTF-8 sequence to its scalar value, rejecting bad
continuation bytes and overlong forms (values beyond U+10FFFF are rejected
later by `mcons`). -/
def dec4 (b b1 b2 b3 : Nat) : Option Nat :=
  if (0x80 ≤ b1 ∧ b1 < 0xC0) ∧ (0x80 ≤ b2 ∧ b2 < 0xC0) ∧ (0x80 ≤ b3 ∧ b3 < 0xC0) then
    if (b - 0xF0) * 262144 + (b1 - 0x80) * 4096 + (b2 - 0x80) * 64 + (b3 - 0x80)
        < 0x10000 then none
    else some ((b - 0xF0) * 262144 + (b1 - 0x80) * 4096 + (b2 - 0x80) * 64 + (b3 - 0x80))
  else none

/-- One decoding step of the UTF-8 decoder: classify the lead byte, read
the continuation bytes from the head of `bs`, and hand the remainder to
`rec`.  Factored out of the recursion so that every claim-level proof can
unfold a single non-recursive definition. -/
def utf8Step (rec : List Nat → Option (List Char)) (b : Nat) (bs : List Nat) :
    Option (List Char) :=
  if b < 0x80 then mcons b (rec bs)
  else if b < 0xC0 then none
  else if b < 0xE0 then
    match bs with
    | b1 :: bs1 =>
      match dec2 b b1 with
      | none => none
      | some n => mcons n (rec bs1)
    | [] => none
  else if b < 0xF0 then
    match bs with
    | b1 :: b2 :: bs2 =>
      match dec3 b b1 b2 with
      | none => none
      | some n => mcons n (rec bs2)
    | _ => none
  else if b < 0xF8 then
    match bs with
    | b1 :: b2 :: b3 :: bs3 =>
      match dec4 b b1 b2 b3 with
      | none => none
      | some n => mcons n (rec bs3)
    | _ => none
  else none

/-- Fuel-indexed UTF-8 decoder: the fuel only serves termination and is
irrelevant once it reaches the list length. -/
def utf8DecodeF : Nat → List Nat → Option (List Char)
  | _, [] => some []
  | 0, _ :: _ => none
  | f + 1, b :: bs => utf8Step (utf8DecodeF f) b bs

/-- A strict UTF-8 decoder over byte lists, the model of
`bytes.decode('utf-8')`: `none` models a raised `UnicodeDecodeError`. -/
def utf8Decode (bs : List Nat) : Option (List Char) :=
  utf8DecodeF bs.length bs

/-- What `read_request` returns for a given incoming byte stream: `closed`
models the `None` return (peer closed, possibly mid-frame — the caught
`IncompleteReadError`), `decodeError` a `UnicodeDecodeError` that the
function does not catch, and `got` a decoded request plus the bytes left
on the stream. -/
inductive ReadResult
  | closed
  | decodeError
  | got (s : List Char) (rest : List Nat)
deriving DecidableEq

/-- Source coroutine `read_request`.  Note that `struct.unpack` returns a
one-element tuple, so the source's comparison `length == 0` compares a tuple
with an integer and is always `False`: the embedded definition consequently
has no early return between reading the prefix and reading the body.  The
guard `len(lendata) == 0` after `readexactly(4)` is likewise dead code. -/
def read_request (bs : List Nat) : ReadResult :=
  if bs.length < 4 then .closed
  else
    let n := unpack32 (bs.take 4)
    let body := bs.drop 4
    if body.length < n then .closed
    else
      match utf8Decode (body.take n) with
      | some s => .got s (body.drop n)
      | none => .decodeError

/-- Source coroutine `send_reply`: UTF-8 encode the reply, write the 4-byte
length prefix followed by exactly the encoded bytes. -/
def send_reply (reply : List Char) : List Nat :=
  pack32 (utf8Encode reply).length ++ utf8Encode reply

/-- Per-run transform performed by the Thai loop, factored out for the
characterization theorem of claim C5: it mirrors one iteration of
`ttLoopThai` on a single run. -/
def thaiRun (uname : Char → Option (List Char)) (eng : List Char → Option (List Char))
    (r : List Char) : TResult :=
  match r with
  | [] => .raised
  | c :: _ =>
    match alphaOf uname c with
    | none => .raised
    | some a =>
      if a = pystr "THAI" then
        match eng r with
        | none => .noResult
        | some t => .text (rstripWS (rstripMark t))
      else .text r

/-- Per-run transform that claim C5 literally describes: the engine output
with one trailing marker token `"<s/>"` removed and surrounding (leading and
trailing) whitespace stripped.  This definition follows the claim's words,
for comparison with `thaiRun`, which follows the source. -/
def thaiRunSpec (uname : Char → Option (List Char)) (eng : List Char → Option (List Char))
    (r : List Char) : TResult :=
  match r with
  | [] => .raised
  | c :: _ =>
    match alphaOf uname c with
    | none => .raised
    | some a =>
      if a = pystr "THAI" then
        match eng r with
        | none => .noResult
        | some t =>
          let t1 := if (pystr "<s/>").isSuffixOf t then t.take (t.length - 4) else t
          .text (rstripWS (t1.dropWhile pyIsSpace))
      else .text r

/-- Concatenate per-run results in order, the first failure aborting the
whole call with no partial output. -/
def concatResults : List TResult → TResult
  | [] => .text []
  | r :: rest =>
    match r with
    | .text s =>
      match concatResults rest with
      | .text t => .text (s ++ t)
      | .raised => .raised
      | .noResult => .noResult
    | .raised => .raised
    | .noResult => .noResult

/-- The Thai strategy as claim C5 states it: split by alphabet, apply the
claim's per-run transform, concatenate in original order. -/
def thai_transcript_spec (uname : Char → Option (List Char))
    (eng : List Char → Option (List Char)) (inp : List Char) : TResult :=
  match split_by_alphabet uname inp with
  | none => .raised
  | some runs => concatResults (runs.map (thaiRunSpec uname eng))

/-- Append a prefix to the string of a successful result, failures passing
through: the accumulator view of the loop, used to relate `ttLoopThai` to
`concatResults`. -/
def tappend (latin : List Char) : TResult → TResult
  | .text t => .text (latin ++ t)
  | .raised => .raised
  | .noResult => .noResult

/-- First name token of a run's leading codepoint (`none` on an empty run
or an unnamed codepoint), the trigger test of the Thai and Cantonese loops. -/
def runAlpha (uname : Char → Option (List Char)) : List Char → Option (List Char)
  | [] => none
  | c :: _ => alphaOf uname c

/-- A concrete Unicode name table for witnesses and counterexamples: NUL is
unnamed (as in the real table), Thai-block codepoints have a THAI-token
name, CJK-block codepoints a CJK-token name, everything else a LATIN-token
name. -/
def tUname (c : Char) : Option (List Char) :=
  if c.toNat = 0 then none
  else if 0x0E00 < c.toNat ∧ c.toNat < 0x0E80 then some (pystr "THAI CHARACTER DEMO")
  else if 0x4E00 ≤ c.toNat ∧ c.toNat ≤ 0x9FFF then some (pystr "CJK UNIFIED IDEOGRAPH DEMO")
  else some (pystr "LATIN LETTER DEMO")

/-- A concrete engine bundle for witnesses: both fallible engines always
fail, the total ones are the identity. -/
def tEngines : Engines :=
  { uname := tUname
    th2roman := fun _ => none
    jyutping := fun _ => none
    kakasi := fun s => s
    icu_nfc := fun s => s }

/-- A concrete ready geo component whose backend always answers `cn`. -/
def tGeo : Geo :=
  { ready := true
    backend := fun _ _ => pystr "cn" }

/-- A concrete Thai romanization engine whose output ends in a space-and-`s`
tail but carries no `"<s/>"` marker, separating the source's character-set
`rstrip` from the claim's token strip. -/
def cEng (_ : List Char) : Option (List Char) := some (pystr " ks")


/-- The effective country code recorded by `finish` is the one it was
handed, whatever the transcription result. -/
theorem finish_effCC (E : Engines) (cc n : List Char) (q : Bool) :
    (finish E cc n q).effCC = some cc := by
  unfold finish
  rcases h : (if n ≠ [] then transcript E cc n else TResult.text []) with _ | _ | s <;>
    simp [h]

/-- The geo-query flag recorded by `finish` is the one it was handed. -/
theorem finish_geoQueried (E : Engines) (cc n : List Char) (q : Bool) :
    (finish E cc n q).geoQueried = q := by
  unfold finish
  rcases h : (if n ≠ [] then transcript E cc n else TResult.text []) with _ | _ | s <;>
    simp [h]

/-- A failing transcription (sentinel or exception) makes the handler send
the empty reply and keep the connection. -/
theorem finish_fail (E : Engines) (cc n : List Char) (q : Bool) (hn : n ≠ [])
    (h : transcript E cc n = .noResult ∨ transcript E cc n = .raised) :
    (finish E cc n q).outcome = .reply [] := by
  unfold finish
  rw [if_pos hn]
  rcases h with h | h <;> rw [h]

/-- An empty name short-circuits to the empty reply. -/
theorem finish_empty_name (E : Engines) (cc : List Char) (q : Bool) :
    (finish E cc [] q).outcome = .reply [] := by
  unfold finish
  rw [if_neg (by simp)]

/-- If no codepoint of `n` lies in the closed interval 0x4E00–0x9FFF then
`contains_cjk` is false. -/
theorem contains_cjk_false (n : List Char)
    (h : ¬ ∃ c ∈ n, 0x4E00 ≤ c.toNat ∧ c.toNat ≤ 0x9FFF) : contains_cjk n = false := by
  rw [contains_cjk, List.any_eq_false]
  intro c hc
  simp only [decide_eq_true_eq]
  intro hlt
  exact h ⟨c, hc, by omega⟩

/-- A codepoint strictly inside the Thai block makes `contains_thai` true. -/
theorem contains_thai_true (n : List Char) (c : Char) (hc : c ∈ n)
    (h : 0x0E00 < c.toNat ∧ c.toNat < 0x0E7F) : contains_thai n = true := by
  rw [contains_thai, List.any_eq_true]
  exact ⟨c, hc, by simpa using h⟩

/-- Every run emitted by the `split_by_alphabet` loop is nonempty and starts
with a named codepoint, provided the run under construction and the runs
already emitted are. -/
theorem sbaLoop_mem_ok (uname : Char → Option (List Char)) (cs : List Char) :
    ∀ (old target : List Char) (acc runs : List (List Char)),
      (∀ r ∈ acc, ∃ c t, r = c :: t ∧ (alphaOf uname c).isSome) →
      (∃ c t, target = c :: t ∧ (alphaOf uname c).isSome) →
      sbaLoop uname cs old target acc = some runs →
      ∀ r ∈ runs, ∃ c t, r = c :: t ∧ (alphaOf uname c).isSome := by
  induction cs with
  | nil =>
    intro old target acc runs hacc htar heq r hr
    simp only [sbaLoop, Option.some.injEq] at heq
    subst heq
    rcases List.mem_append.1 hr with h | h
    · exact hacc r h
    · rw [List.mem_singleton] at h
      subst h
      exact htar
  | cons c cs ih =>
    intro old target acc runs hacc htar heq r hr
    simp only [sbaLoop] at heq
    cases ha : alphaOf uname c with
    | none => simp only [ha] at heq; exact Option.noConfusion heq
    | some a =>
      simp only [ha] at heq
      by_cases hao : a = old
      · rw [if_pos hao] at heq
        refine ih a (target ++ [c]) acc runs hacc ?_ heq r hr
        rcases htar with ⟨c0, t0, rfl, hs⟩
        exact ⟨c0, t0 ++ [c], by simp, hs⟩
      · rw [if_neg hao] at heq
        refine ih a [c] (acc ++ [target]) runs ?_ ⟨c, [], rfl, by rw [ha]; rfl⟩ heq r hr
        intro r' hr'
        rcases List.mem_append.1 hr' with h | h
        · exact hacc r' h
        · rw [List.mem_singleton] at h
          subst h
          exact htar

/-- Every run produced by `split_by_alphabet` is nonempty and starts with a
named codepoint. -/
theorem split_mem_ok (uname : Char → Option (List Char)) (s : List Char)
    (runs : List (List Char)) (h : split_by_alphabet uname s = some runs) :
    ∀ r ∈ runs, ∃ c t, r = c :: t ∧ (alphaOf uname c).isSome := by
  cases s with
  | nil => simp only [split_by_alphabet] at h; exact Option.noConfusion h
  | cons c cs =>
    simp only [split_by_alphabet] at h
    cases ha : alphaOf uname c with
    | none => simp only [ha] at h; exact Option.noConfusion h
    | some a0 =>
      simp only [ha] at h
      exact sbaLoop_mem_ok uname cs a0 [c] [] runs
        (by intro r hr; exact absurd hr (List.not_mem_nil r))
        ⟨c, [], rfl, by rw [ha]; rfl⟩ h

/-- The `split_by_alphabet` loop raises as soon as any remaining codepoint
is unnamed. -/
theorem sbaLoop_unnamed (uname : Char → Option (List Char)) (cs : List Char) :
    ∀ (old target : List Char) (acc : List (List Char)),
      (∃ c ∈ cs, uname c = none) →
      sbaLoop uname cs old target acc = none := by
  induction cs with
  | nil =>
    intro _ _ _ h
    rcases h with ⟨c, hc, _⟩
    exact absurd hc (List.not_mem_nil c)
  | cons c cs ih =>
    intro old target acc h
    rcases h with ⟨d, hd, hdn⟩
    rcases List.mem_cons.1 hd with rfl | hd'
    · have hna : alphaOf uname d = none := by simp [alphaOf, hdn]
      simp only [sbaLoop, hna]
    · cases ha : alphaOf uname c with
      | none => simp only [sbaLoop, ha]
      | some a =>
        simp only [sbaLoop, ha]
        by_cases hao : a = old
        · rw [if_pos hao]; exact ih _ _ _ ⟨d, hd', hdn⟩
        · rw [if_neg hao]; exact ih _ _ _ ⟨d, hd', hdn⟩

/-- `split_by_alphabet` raises whenever the input holds an unnamed codepoint. -/
theorem split_unnamed (uname : Char → Option (List Char)) (s : List Char)
    (h : ∃ c ∈ s, uname c = none) : split_by_alphabet uname s = none := by
  cases s with
  | nil => rfl
  | cons c cs =>
    simp only [split_by_alphabet]
    rcases h with ⟨d, hd, hdn⟩
    rcases List.mem_cons.1 hd with rfl | hd'
    · have hna : alphaOf uname d = none := by simp [alphaOf, hdn]
      simp only [hna]
    · cases ha : alphaOf uname c with
      | none => rfl
      | some a0 =>
        simp only [ha]
        exact sbaLoop_unnamed uname cs a0 [c] [] ⟨d, hd', hdn⟩

/-- If some run of the list triggers the Thai engine and the engine fails on
it, the Thai loop returns the `None` sentinel — never a partial text —
whatever was accumulated so far (all runs being nonempty with named heads,
as `split_by_alphabet` guarantees). -/
theorem ttLoopThai_noResult (uname : Char → Option (List Char))
    (eng : List Char → Option (List Char)) (runs : List (List Char)) :
    (∀ r ∈ runs, ∃ c t, r = c :: t ∧ (alphaOf uname c).isSome) →
    ∀ r ∈ runs, runAlpha uname r = some (pystr "THAI") → eng r = none →
    ∀ latin, ttLoopThai uname eng runs latin = .noResult := by
  induction runs with
  | nil => intro _ r hr; exact absurd hr (List.not_mem_nil r)
  | cons st rest ih =>
    intro hok r hr hth hf latin
    obtain ⟨c, t, rfl, hs⟩ := hok st (List.mem_cons_self _ _)
    obtain ⟨a, ha⟩ := Option.isSome_iff_exists.1 hs
    rcases List.mem_cons.1 hr with rfl | hr'
    · simp only [runAlpha] at hth
      rw [ha] at hth
      obtain rfl := Option.some.inj hth
      simp [ttLoopThai, ha, hf]
    · by_cases hA : a = pystr "THAI"
      · cases he : eng (c :: t) with
        | none => simp only [ttLoopThai, ha, if_pos hA, he]
        | some s =>
          simp only [ttLoopThai, ha, if_pos hA, he]
          exact ih (fun r' hr'' => hok r' (List.mem_cons_of_mem _ hr'')) r hr' hth hf _
      · simp only [ttLoopThai, ha, if_neg hA]
        exact ih (fun r' hr'' => hok r' (List.mem_cons_of_mem _ hr'')) r hr' hth hf _

/-- Cantonese analogue of `ttLoopThai_noResult`, triggered by the CJK name
token. -/
theorem ctLoopCant_noResult (uname : Char → Option (List Char))
    (eng : List Char → Option (List Char)) (runs : List (List Char)) :
    (∀ r ∈ runs, ∃ c t, r = c :: t ∧ (alphaOf uname c).isSome) →
    ∀ r ∈ runs, runAlpha uname r = some (pystr "CJK") → eng r = none →
    ∀ latin, ctLoopCant uname eng runs latin = .noResult := by
  induction runs with
  | nil => intro _ r hr; exact absurd hr (List.not_mem_nil r)
  | cons st rest ih =>
    intro hok r hr hth hf latin
    obtain ⟨c, t, rfl, hs⟩ := hok st (List.mem_cons_self _ _)
    obtain ⟨a, ha⟩ := Option.isSome_iff_exists.1 hs
    rcases List.mem_cons.1 hr with rfl | hr'
    · simp only [runAlpha] at hth
      rw [ha] at hth
      obtain rfl := Option.some.inj hth
      simp [ctLoopCant, ha, hf]
    · by_cases hA : a = pystr "CJK"
      · cases he : eng (c :: t) with
        | none => simp only [ctLoopCant, ha, if_pos hA, he]
        | some s =>
          simp only [ctLoopCant, ha, if_pos hA, he]
          exact ih (fun r' hr'' => hok r' (List.mem_cons_of_mem _ hr'')) r hr' hth hf _
      · simp only [ctLoopCant, ha, if_neg hA]
        exact ih (fun r' hr'' => hok r' (List.mem_cons_of_mem _ hr'')) r hr' hth hf _

/-- The accumulator loop of `thai_transcript` computes exactly the per-run
transforms concatenated in order, the first failure aborting the call. -/
theorem ttLoopThai_eq_concat (uname : Char → Option (List Char))
    (eng : List Char → Option (List Char)) (runs : List (List Char)) :
    ∀ latin, ttLoopThai uname eng runs latin =
      tappend latin (concatResults (runs.map (thaiRun uname eng))) := by
  induction runs with
  | nil => intro latin; simp [ttLoopThai, concatResults, tappend]
  | cons st rest ih =>
    intro latin
    cases st with
    | nil => simp [ttLoopThai, concatResults, thaiRun, tappend]
    | cons c t =>
      cases ha : alphaOf uname c with
      | none => simp [ttLoopThai, concatResults, thaiRun, tappend, ha]
      | some a =>
        by_cases hA : a = pystr "THAI"
        · cases he : eng (c :: t) with
          | none =>
            simp [ttLoopThai, concatResults, thaiRun, tappend, ha, if_pos hA, he]
          | some s =>
            simp only [ttLoopThai, List.map, concatResults, thaiRun, ha, if_pos hA, he]
            rw [ih]
            cases hc : concatResults (rest.map (thaiRun uname eng)) <;>
              simp [tappend, List.append_assoc]
        · simp only [ttLoopThai, List.map, concatResults, thaiRun, ha, if_neg hA]
          rw [ih]
          cases hc : concatResults (rest.map (thaiRun uname eng)) <;>
            simp [tappend, List.append_assoc]

/-- The 4-byte length prefix always has length 4. -/
theorem pack32_length (n : Nat) : (pack32 n).length = 4 := rfl

/-- Unpacking the packed length recovers it for every value that fits in
the 4-byte unsigned field. -/
theorem unpack32_pack32 (n : Nat) (h : n < 2 ^ 32) : unpack32 (pack32 n) = n := by
  simp only [pack32, unpack32]
  omega

/-- Prepending a decoded scalar coming from a `Char` always succeeds and
prepends that character. -/
theorem mcons_toNat (c : Char) (r : Option (List Char)) :
    mcons c.toNat r = r.map (c :: ·) := by
  have hv : Nat.isValidChar c.toNat := c.valid
  rw [mcons, if_pos hv, Char.ofNat_toNat]

/-- A decoding step only queries its recursive continuation on lists no
longer than the tail it was handed. -/
theorem utf8Step_congr (r1 r2 : List Nat → Option (List Char)) (b : Nat) (bs : List Nat)
    (h : ∀ l : List Nat, l.length ≤ bs.length → r1 l = r2 l) :
    utf8Step r1 b bs = utf8Step r2 b bs := by
  rw [utf8Step.eq_def, utf8Step.eq_def]
  by_cases h1 : b < 0x80
  · rw [if_pos h1, if_pos h1, h bs le_rfl]
  · rw [if_neg h1, if_neg h1]
    by_cases h2 : b < 0xC0
    · rw [if_pos h2, if_pos h2]
    · rw [if_neg h2, if_neg h2]
      by_cases h3 : b < 0xE0
      · rw [if_pos h3, if_pos h3]
        cases bs with
        | nil => rfl
        | cons b1 bs1 =>
          dsimp only
          cases dec2 b b1 with
          | none => rfl
          | some n =>
            dsimp only
            rw [h bs1 (by simp)]
      · rw [if_neg h3, if_neg h3]
        by_cases h4 : b < 0xF0
        · rw [if_pos h4, if_pos h4]
          cases bs with
          | nil => rfl
          | cons b1 bs' =>
            cases bs' with
            | nil => rfl
            | cons b2 bs2 =>
              dsimp only
              cases dec3 b b1 b2 with
              | none => rfl
              | some n =>
                dsimp only
                rw [h bs2 (by simp; omega)]
        · rw [if_neg h4, if_neg h4]
          by_cases h5 : b < 0xF8
          · rw [if_pos h5, if_pos h5]
            cases bs with
            | nil => rfl
            | cons b1 bs' =>
              cases bs' with
              | nil => rfl
              | cons b2 bs'' =>
                cases bs'' with
                | nil => rfl
                | cons b3 bs3 =>
                  dsimp only
                  cases dec4 b b1 b2 b3 with
                  | none => rfl
                  | some n =>
                    dsimp only
                    rw [h bs3 (by simp; omega)]
          · rw [if_neg h5, if_neg h5]

/-- The fuel of `utf8DecodeF` is irrelevant once it covers the list length. -/
theorem utf8DecodeF_fuel (f : Nat) : ∀ (g : Nat) (bs : List Nat),
    bs.length ≤ f → bs.length ≤ g → utf8DecodeF f bs = utf8DecodeF g bs := by
  induction f with
  | zero =>
    intro g bs hf _
    have : bs = [] := List.length_eq_zero.1 (Nat.le_zero.1 hf)
    subst this
    cases g <;> rfl
  | succ f ih =>
    intro g bs hf hg
    cases bs with
    | nil => cases g <;> rfl
    | cons b bs' =>
      cases g with
      | zero => simp at hg
      | succ g' =>
        rw [utf8DecodeF, utf8DecodeF]
        refine utf8Step_congr _ _ b bs' ?_
        intro l hl
        have hlen : bs'.length + 1 ≤ f + 1 := by simpa using hf
        have hlen' : bs'.length + 1 ≤ g' + 1 := by simpa using hg
        exact ih g' l (by omega) (by omega)

/-- Decoding an encoded character at the head of a stream peels it off and
decodes the remainder. -/
theorem utf8Decode_encodeChar (c : Char) (bs : List Nat) :
    utf8Decode (encodeChar c ++ bs) = (utf8Decode bs).map (c :: ·) := by
  have hv : Nat.isValidChar c.toNat := c.valid
  have hub : c.toNat < 0x110000 := by rcases hv with h | h <;> omega
  by_cases h1 : c.toNat < 0x80
  · have he : encodeChar c = [c.toNat] := by rw [encodeChar, if_pos h1]
    rw [he, List.singleton_append]
    rw [utf8Decode, List.length_cons, utf8DecodeF, utf8Step.eq_def, if_pos h1, mcons_toNat]
    rfl
  · by_cases h2 : c.toNat < 0x800
    · have he : encodeChar c = [0xC0 + c.toNat / 64, 0x80 + c.toNat % 64] := by
        rw [encodeChar, if_neg h1, if_pos h2]
      rw [he, List.cons_append, List.singleton_append]
      have ha1 : ¬(0xC0 + c.toNat / 64 < 0x80) := by omega
      have ha2 : ¬(0xC0 + c.toNat / 64 < 0xC0) := by omega
      have ha3 : 0xC0 + c.toNat / 64 < 0xE0 := by omega
      have hd : dec2 (0xC0 + c.toNat / 64) (0x80 + c.toNat % 64) = some c.toNat := by
        rw [dec2, if_pos (by constructor <;> omega), if_neg (by omega)]
        congr 1
        omega
      rw [utf8Decode, List.length_cons, List.length_cons, utf8DecodeF, utf8Step.eq_def,
        if_neg ha1, if_neg ha2, if_pos ha3]
      dsimp only
      rw [hd]
      dsimp only
      rw [utf8DecodeF_fuel (bs.length + 1) bs.length bs (by omega) le_rfl, mcons_toNat]
      rfl
    · by_cases h3 : c.toNat < 0x10000
      · have he : encodeChar c
            = [0xE0 + c.toNat / 4096, 0x80 + c.toNat / 64 % 64, 0x80 + c.toNat % 64] := by
          rw [encodeChar, if_neg h1, if_neg h2, if_pos h3]
        rw [he, List.cons_append, List.cons_append, List.singleton_append]
        have ha1 : ¬(0xE0 + c.toNat / 4096 < 0x80) := by omega
        have ha2 : ¬(0xE0 + c.toNat / 4096 < 0xC0) := by omega
        have ha3 : ¬(0xE0 + c.toNat / 4096 < 0xE0) := by omega
        have ha4 : 0xE0 + c.toNat / 4096 < 0xF0 := by omega
        have hd : dec3 (0xE0 + c.toNat / 4096) (0x80 + c.toNat / 64 % 64)
            (0x80 + c.toNat % 64) = some c.toNat := by
          rw [dec3, if_pos (by refine ⟨⟨?_, ?_⟩, ?_, ?_⟩ <;> omega), if_neg (by omega)]
          congr 1
          omega
        rw [utf8Decode, List.length_cons, List.length_cons, List.length_cons,
          utf8DecodeF, utf8Step.eq_def, if_neg ha1, if_neg ha2, if_neg ha3, if_pos ha4]
        dsimp only
        rw [hd]
        dsimp only
        rw [utf8DecodeF_fuel (bs.length + 1 + 1) bs.length bs (by omega) le_rfl,
          mcons_toNat]
        rfl
      · have he : encodeChar c
            = [0xF0 + c.toNat / 262144, 0x80 + c.toNat / 4096 % 64,
                0x80 + c.toNat / 64 % 64, 0x80 + c.toNat % 64] := by
          rw [encodeChar, if_neg h1, if_neg h2, if_neg h3]
        rw [he, List.cons_append, List.cons_append, List.cons_append,
          List.singleton_append]
        have ha1 : ¬(0xF0 + c.toNat / 262144 < 0x80) := by omega
        have ha2 : ¬(0xF0 + c.toNat / 262144 < 0xC0) := by omega
        have ha3 : ¬(0xF0 + c.toNat / 262144 < 0xE0) := by omega
        have ha4 : ¬(0xF0 + c.toNat / 262144 < 0xF0) := by omega
        have ha5 : 0xF0 + c.toNat / 262144 < 0xF8 := by omega
        have hd : dec4 (0xF0 + c.toNat / 262144) (0x80 + c.toNat / 4096 % 64)
            (0x80 + c.toNat / 64 % 64) (0x80 + c.toNat % 64) = some c.toNat := by
          rw [dec4, if_pos (by refine ⟨⟨?_, ?_⟩, ⟨?_, ?_⟩, ?_, ?_⟩ <;> omega),
            if_neg (by omega)]
          congr 1
          omega
        rw [utf8Decode, List.length_cons, List.length_cons, List.length_cons,
          List.length_cons, utf8DecodeF, utf8Step.eq_def, if_neg ha1, if_neg ha2,
          if_neg ha3, if_neg ha4, if_pos ha5]
        dsimp only
        rw [hd]
        dsimp only
        rw [utf8DecodeF_fuel (bs.length + 1 + 1 + 1) bs.length bs (by omega) le_rfl,
          mcons_toNat]
        rfl

/-- UTF-8 decoding inverts UTF-8 encoding on every string. -/
theorem utf8Decode_utf8Encode (s : List Char) : utf8Decode (utf8Encode s) = some s := by
  induction s with
  | nil => rfl
  | cons c cs ih =>
    rw [utf8Encode, utf8Decode_encodeChar, ih]
    rfl

/-- Claim C7: for every 3-field request, the supplied country code is used
verbatim as the effective country code, regardless of the script content of
the name, and the geo resolver is never consulted in this path. -/
theorem C7_direct_cc_verbatim (E : Engines) (g : Geo) (data i cc n : List Char)
    (hq : pySplit data = [i, cc, n]) :
    (handle_request E g data).effCC = some cc ∧
    (handle_request E g data).geoQueried = false := by
  simp only [handle_request, hq]
  exact ⟨finish_effCC E cc n false, finish_geoQueried E cc n false⟩

/-- Witness for C7 at the concrete request `5/de/xyz`. -/
theorem C7_witness :
    pySplit (pystr "5/de/xyz") = [pystr "5", pystr "de", pystr "xyz"] ∧
    (handle_request tEngines tGeo (pystr "5/de/xyz")).effCC = some (pystr "de") ∧
    (handle_request tEngines tGeo (pystr "5/de/xyz")).geoQueried = false :=
  ⟨by decide,
    (C7_direct_cc_verbatim tEngines tGeo (pystr "5/de/xyz") (pystr "5") (pystr "de")
      (pystr "xyz") (by decide)).1,
    (C7_direct_cc_verbatim tEngines tGeo (pystr "5/de/xyz") (pystr "5") (pystr "de")
      (pystr "xyz") (by decide)).2⟩

/-- Claim C8: every well-formed request (3-field or 4-field shape) whose
name field is the empty string gets the empty string as reply. -/
theorem C8_empty_name_empty_reply (E : Engines) (g : Geo) (data i a b : List Char)
    (hq : pySplit data = [i, a, []] ∨ pySplit data = [i, a, b, []]) :
    (handle_request E g data).outcome = .reply [] := by
  rcases hq with hq | hq
  · simp only [handle_request, hq]
    exact finish_empty_name E a false
  · simp only [handle_request, hq, contains_cjk, contains_thai, List.any_nil]
    cases hg : g.ready
    · simp only [hg, Bool.false_eq_true, if_false]
      exact finish_empty_name E [] false
    · simp only [hg, if_true]
      exact finish_empty_name E [] false

/-- Witness for C8 at the concrete request `7//`. -/
theorem C8_witness :
    pySplit (pystr "7//") = [pystr "7", pystr "", pystr ""] ∧
    (handle_request tEngines tGeo (pystr "7//")).outcome = .reply [] :=
  ⟨by decide,
    C8_empty_name_empty_reply tEngines tGeo (pystr "7//") (pystr "7") (pystr "")
      (pystr "") (Or.inl (by decide))⟩

/-- Claim C4: a 4-field request with a ready geo resolver whose name holds
an assigned Thai-block character (all of which lie strictly inside the
block, its two boundary codepoints being unassigned) and no CJK-block
character gets effective country code exactly `th`, and the geo resolver is
not queried. -/
theorem C4_thai_name_yields_th (E : Engines) (g : Geo) (data i lon lat n : List Char)
    (hq : pySplit data = [i, lon, lat, n]) (hready : g.ready = true)
    (hth : ∃ c ∈ n, (0x0E01 ≤ c.toNat ∧ c.toNat ≤ 0x0E3A) ∨
      (0x0E3F ≤ c.toNat ∧ c.toNat ≤ 0x0E5B))
    (hcjk : ¬ ∃ c ∈ n, 0x4E00 ≤ c.toNat ∧ c.toNat ≤ 0x9FFF) :
    (handle_request E g data).effCC = some (pystr "th") ∧
    (handle_request E g data).geoQueried = false := by
  obtain ⟨c, hc, hcr⟩ := hth
  have hthai : contains_thai n = true :=
    contains_thai_true n c hc (by rcases hcr with h | h <;> omega)
  have hcjk' : contains_cjk n = false := contains_cjk_false n hcjk
  simp only [handle_request, hq, hready, hcjk', hthai, if_true, Bool.false_eq_true,
    if_false]
  exact ⟨finish_effCC E (pystr "th") n false, finish_geoQueried E (pystr "th") n false⟩

/-- Witness for C4 at the concrete request `9/1/2/ก`. -/
theorem C4_witness :
    pySplit (pystr "9/1/2/ก") = [pystr "9", pystr "1", pystr "2", pystr "ก"] ∧
    (handle_request tEngines tGeo (pystr "9/1/2/ก")).effCC = some (pystr "th") ∧
    (handle_request tEngines tGeo (pystr "9/1/2/ก")).geoQueried = false :=
  ⟨by decide,
    (C4_thai_name_yields_th tEngines tGeo (pystr "9/1/2/ก") (pystr "9") (pystr "1")
      (pystr "2") (pystr "ก") (by decide) rfl (by decide) (by decide)).1,
    (C4_thai_name_yields_th tEngines tGeo (pystr "9/1/2/ก") (pystr "9") (pystr "1")
      (pystr "2") (pystr "ก") (by decide) rfl (by decide) (by decide)).2⟩

/-- Claim C3 is violated by the code: the request `1/100/30/一` carries the
CJK-block character U+4E00 and reaches a ready geo resolver, yet
`contains_cjk` uses strict comparisons, so the resolver is never queried
and the effective country code is empty instead of the backend's answer. -/
theorem C3_cjk_boundary_not_queried :
    tGeo.ready = true ∧
    (∃ c ∈ pystr "一", 0x4E00 ≤ c.toNat ∧ c.toNat ≤ 0x9FFF) ∧
    (handle_request tEngines tGeo (pystr "1/100/30/一")).geoQueried = false ∧
    (handle_request tEngines tGeo (pystr "1/100/30/一")).effCC = some [] := by
  decide

/-- Claim C1 is violated by the code: a 2-field request does not yield an
empty reply with the connection kept open — the tuple unpacking raises an
uncaught ValueError, the handler crashes, and the following request on the
same connection is never processed. -/
theorem C1_counterexample :
    (pySplit (pystr "a/b")).length = 2 ∧
    (handle_request tEngines tGeo (pystr "a/b")).outcome = .crashed ∧
    runRequests tEngines tGeo [pystr "a/b", pystr "1/de/x"] = [] := by
  decide

/-- Claim C1 as amended: a decoded request whose split yields 1 or 2 fields
makes the tuple unpacking raise outside the `try` block, so no reply is
sent for it, the handler terminates, and no later request on the connection
is processed. -/
theorem C1_amended_short_split_crashes (E : Engines) (g : Geo) (data : List Char)
    (h : (pySplit data).length = 1 ∨ (pySplit data).length = 2) :
    (handle_request E g data).outcome = .crashed ∧
    ∀ ds : List (List Char), runRequests E g (data :: ds) = [] := by
  have hcr : (handle_request E g data).outcome = .crashed := by
    rcases h with h | h
    · obtain ⟨a, ha⟩ := List.length_eq_one.1 h
      simp [handle_request, ha]
    · obtain ⟨a, b, hab⟩ := List.length_eq_two.1 h
      simp [handle_request, hab]
  refine ⟨hcr, fun ds => ?_⟩
  simp only [runRequests, hcr]

/-- Witness for the amended C1 at the concrete request `a/b`. -/
theorem C1_witness :
    ((pySplit (pystr "a/b")).length = 1 ∨ (pySplit (pystr "a/b")).length = 2) ∧
    (handle_request tEngines tGeo (pystr "a/b")).outcome = .crashed ∧
    runRequests tEngines tGeo [pystr "a/b"] = [] :=
  ⟨by decide,
    (C1_amended_short_split_crashes tEngines tGeo (pystr "a/b") (by decide)).1,
    (C1_amended_short_split_crashes tEngines tGeo (pystr "a/b") (by decide)).2 []⟩

/-- Claim C2 is violated by the code (a slip contradicting the function's
own comment and its dead `length == 0` guard): a frame whose 4-byte prefix
is zero is not a clean termination — `read_request` returns the empty
string, and the handler then crashes on the tuple unpacking of the
single-field split instead of closing cleanly. -/
theorem C2_zero_length_frame_processed (rest : List Nat) (E : Engines) (g : Geo) :
    unpack32 [0, 0, 0, 0] = 0 ∧
    read_request (0 :: 0 :: 0 :: 0 :: rest) = .got [] rest ∧
    (handle_request E g (pystr "")).outcome = .crashed := by
  refine ⟨rfl, ?_, rfl⟩
  simp [read_request, unpack32, utf8Decode, utf8DecodeF]

/-- Claim C10: when the name handed to the Thai or Cantonese strategy holds
a codepoint without a Unicode name, the run splitting raises, the request
gets the empty-string reply even though the rest of the name may be
transcribable, and the connection continues with the next request. -/
theorem C10_unnamed_codepoint_raises (E : Engines) (g : Geo) (data i cc n : List Char)
    (ds : List (List Char)) (hq : pySplit data = [i, cc, n])
    (hcc : cc = pystr "th" ∨ cc = pystr "mo" ∨ cc = pystr "hk")
    (hun : ∃ ch ∈ n, E.uname ch = none) :
    split_by_alphabet E.uname n = none ∧
    (handle_request E g data).outcome = .reply [] ∧
    runRequests E g (data :: ds) = [] :: runRequests E g ds := by
  have hsp := split_unnamed E.uname n hun
  have hne : n ≠ [] := by
    rcases hun with ⟨ch, hch, _⟩
    intro h
    subst h
    exact absurd hch (List.not_mem_nil ch)
  have htr : transcript E cc n = .raised := by
    rcases hcc with rfl | rfl | rfl
    · rw [transcript, if_neg (by decide), if_pos rfl]
      simp only [thai_transcript, hsp]
    · rw [transcript, if_neg (by decide), if_neg (by decide), if_pos (Or.inl rfl)]
      simp only [cantonese_transcript, hsp]
    · rw [transcript, if_neg (by decide), if_neg (by decide), if_pos (Or.inr rfl)]
      simp only [cantonese_transcript, hsp]
  have hout : (handle_request E g data).outcome = .reply [] := by
    simp only [handle_request, hq]
    exact finish_fail E cc n false hne (Or.inr htr)
  refine ⟨hsp, hout, ?_⟩
  simp only [runRequests, hout]

/-- Witness for C10 at the request `3/th/กA` followed by a NUL codepoint. -/
theorem C10_witness :
    split_by_alphabet tEngines.uname (pystr "กA\x00") = none ∧
    (handle_request tEngines tGeo (pystr "3/th/กA\x00")).outcome = .reply [] ∧
    runRequests tEngines tGeo [pystr "3/th/กA\x00"] = [] :: runRequests tEngines tGeo [] :=
  C10_unnamed_codepoint_raises tEngines tGeo (pystr "3/th/กA\x00") (pystr "3")
    (pystr "th") (pystr "กA\x00") [] (by decide) (Or.inl rfl) (by decide)

/-- Claim C6: when the Thai or Cantonese engine fails on some run of the
name, the whole strategy call reports the `None` sentinel — no partial
output — and the handler replies with the empty string and keeps the
connection. -/
theorem C6_strategy_failure_isolated (E : Engines) (g : Geo)
    (data i cc n r : List Char) (runs : List (List Char))
    (hq : pySplit data = [i, cc, n]) (hn : n ≠ [])
    (hsplit : split_by_alphabet E.uname n = some runs) (hr : r ∈ runs)
    (hcase : (cc = pystr "th" ∧ runAlpha E.uname r = some (pystr "THAI") ∧
        E.th2roman r = none) ∨
      ((cc = pystr "mo" ∨ cc = pystr "hk") ∧ runAlpha E.uname r = some (pystr "CJK") ∧
        E.jyutping r = none)) :
    transcript E cc n = .noResult ∧
    (handle_request E g data).outcome = .reply [] := by
  have hok := split_mem_ok E.uname n runs hsplit
  have htr : transcript E cc n = .noResult := by
    rcases hcase with ⟨rfl, hal, hf⟩ | ⟨hmo, hal, hf⟩
    · rw [transcript, if_neg (by decide), if_pos rfl]
      simp only [thai_transcript, hsplit]
      exact ttLoopThai_noResult E.uname E.th2roman runs hok r hr hal hf []
    · have hjp : ¬ cc = pystr "jp" := by rcases hmo with rfl | rfl <;> decide
      have hth : ¬ cc = pystr "th" := by rcases hmo with rfl | rfl <;> decide
      rw [transcript, if_neg hjp, if_neg hth, if_pos hmo]
      simp only [cantonese_transcript, hsplit]
      exact ctLoopCant_noResult E.uname E.jyutping runs hok r hr hal hf []
  refine ⟨htr, ?_⟩
  simp only [handle_request, hq]
  exact finish_fail E cc n false hn (Or.inl htr)

/-- Witness for C6 at the request `1/th/ก` with an always-failing Thai
engine. -/
theorem C6_witness :
    transcript tEngines (pystr "th") (pystr "ก") = .noResult ∧
    (handle_request tEngines tGeo (pystr "1/th/ก")).outcome = .reply [] :=
  C6_strategy_failure_isolated tEngines tGeo (pystr "1/th/ก") (pystr "1") (pystr "th")
    (pystr "ก") (pystr "ก") [pystr "ก"] (by decide) (by decide) (by decide) (by decide)
    (Or.inl ⟨rfl, by decide, rfl⟩)

/-- Claim C5 is violated by the code: the post-processing of a romanized
Thai run is Python `rstrip('<s/>')`, which removes every trailing character
drawn from the set of the four marker characters and only then trailing
whitespace — on an engine output ` ks` (no marker present) the source keeps
the leading space and eats the final `s`, while the claim's reading (strip
one trailing `<s/>` token and surrounding whitespace) would give `ks`. -/
theorem C5_counterexample :
    thai_transcript tUname cEng (pystr "ก") = .text (pystr " k") ∧
    thai_transcript_spec tUname cEng (pystr "ก") = .text (pystr "ks") ∧
    thai_transcript tUname cEng (pystr "ก") ≠ thai_transcript_spec tUname cEng (pystr "ก") := by
  decide

/-- Claim C5 as amended: the Thai strategy splits the input into maximal
same-alphabet runs; each run whose first codepoint's Unicode-name first
token is `THAI` is replaced by the engine output with all trailing
characters from the set of `<`, `s`, `/`, `>` removed and then trailing
whitespace removed (leading whitespace is kept); every other run passes
through unchanged; the per-run results are concatenated in original order,
the first failing run aborting the whole call. -/
theorem C5_amended_thai_runs (uname : Char → Option (List Char))
    (eng : List Char → Option (List Char)) (s : List Char) :
    thai_transcript uname eng s =
      match split_by_alphabet uname s with
      | none => .raised
      | some runs => concatResults (runs.map (thaiRun uname eng)) := by
  simp only [thai_transcript]
  cases hs : split_by_alphabet uname s with
  | none => rfl
  | some runs =>
    dsimp only
    rw [ttLoopThai_eq_concat]
    cases hc : concatResults (runs.map (thaiRun uname eng)) <;> simp [tappend]

/-- Claim C9: framing round-trips — for every reply string, writing it
produces a 4-byte little-endian length prefix holding exactly the UTF-8
byte length, followed by exactly those bytes, and reading the frame back
yields that length and the original string, leaving the rest of the stream
untouched. -/
theorem C9_framing_roundtrip (s : List Char) (rest : List Nat)
    (h : (utf8Encode s).length < 2 ^ 32) :
    (pack32 (utf8Encode s).length).length = 4 ∧
    unpack32 (pack32 (utf8Encode s).length) = (utf8Encode s).length ∧
    send_reply s = pack32 (utf8Encode s).length ++ utf8Encode s ∧
    read_request (send_reply s ++ rest) = .got s rest := by
  refine ⟨pack32_length _, unpack32_pack32 _ h, rfl, ?_⟩
  have hu : unpack32 [(utf8Encode s).length % 256, (utf8Encode s).length / 256 % 256,
      (utf8Encode s).length / 65536 % 256, (utf8Encode s).length / 16777216 % 256]
      = (utf8Encode s).length := by
    have h2 := unpack32_pack32 (utf8Encode s).length h
    simpa [pack32] using h2
  rw [send_reply, pack32]
  simp only [List.cons_append, List.nil_append]
  rw [read_request]
  simp only [List.length_cons, List.take_succ_cons, List.take_zero, List.drop_succ_cons,
    List.drop_zero, hu]
  rw [if_neg (by simp), if_neg (by rw [List.length_append]; omega)]
  rw [List.take_left' rfl, utf8Decode_utf8Encode, List.drop_left' rfl]

/-- Witness for C9 at the concrete reply `héllo` with an empty remaining
stream. -/
theorem C9_witness :
    (utf8Encode (pystr "héllo")).length < 2 ^ 32 ∧
    read_request (send_reply (pystr "héllo") ++ []) = .got (pystr "héllo") [] :=
  ⟨by decide, (C9_framing_roundtrip (pystr "héllo") [] (by decide)).2.2.2⟩
